import Mathlib

/-
  Verification development for the capra backend core
  (src/backend/app/services/claude_service.py, src/backend/app/services/openai_service.py,
  src/backend/app/api/routes.py, src/backend/app/models/schemas.py).

  The Python code is shallowly embedded: pure helpers become Lean functions on
  String / List Char, the mutable module-level cache becomes explicit state
  passing over an association list with dict semantics, exceptions become
  Option / Except, and floats become rationals.
-/

namespace Capra

/-! ## Python string primitives -/

/-- Whitespace characters recognised by Python str.strip, str.split and the
regex class backslash-s on ASCII text: space, tab, newline, carriage return,
vertical tab, form feed. -/
def pyIsSpace (c : Char) : Bool :=
  c = ' ' || c = '\t' || c = '\n' || c = '\r' || c = '\x0b' || c = '\x0c'

/-- Python str.strip on a character list: drop whitespace at both ends. -/
def pyStripList (cs : List Char) : List Char :=
  ((cs.dropWhile pyIsSpace).reverse.dropWhile pyIsSpace).reverse

/-- Python str.strip. -/
def pyStrip (s : String) : String := String.mk (pyStripList s.data)

/-- Python s.split with a single newline separator: keeps empty pieces. -/
def splitNl : List Char → List (List Char)
  | [] => [[]]
  | c :: rest =>
    if c = '\n' then [] :: splitNl rest
    else
      match splitNl rest with
      | [] => [[c]]
      | g :: gs => (c :: g) :: gs

/-- Python newline.join on character-list lines. -/
def joinNl (ls : List (List Char)) : List Char := (ls.intersperse ['\n']).flatten

/-- Python substring containment test (the `in` operator on str). -/
def isSubstr (pat : List Char) : List Char → Bool
  | [] => pat.isPrefixOf ([] : List Char)
  | c :: rest => pat.isPrefixOf (c :: rest) || isSubstr pat rest

/-- Python str.split with no argument: split on whitespace runs, dropping
empty pieces.  Fuel-indexed; every step consumes at least one character, so
the fuel supplied by pyWords always suffices. -/
def pyWordsFuel : Nat → List Char → List (List Char)
  | 0, _ => []
  | _ + 1, [] => []
  | fuel + 1, c :: rest =>
    if pyIsSpace c then pyWordsFuel fuel rest
    else (c :: rest.takeWhile (fun x => !pyIsSpace x)) ::
      pyWordsFuel fuel (rest.dropWhile (fun x => !pyIsSpace x))

/-- Python str.split with no argument, used for the OCR word count. -/
def pyWords (cs : List Char) : List (List Char) := pyWordsFuel (cs.length + 1) cs

/-! ## JSON values and a model of Python json.loads

json.loads is the structured-document parser behind extraction strategies
1 to 3.  We embed it as a fuel-indexed recursive-descent parser over the
JSON grammar (objects, arrays, strings with escapes, numbers, true, false,
null); numbers are represented as rationals.  Duplicate object keys keep the
last binding, as in Python, via pyObjGet below. -/

inductive Json where
  | null : Json
  | bool (b : Bool) : Json
  | num (q : ℚ) : Json
  | str (s : String) : Json
  | arr (elems : List Json) : Json
  | obj (fields : List (String × Json)) : Json

/-- JSON structural whitespace (RFC 8259, as accepted by json.loads). -/
def jsonWs (c : Char) : Bool := c = ' ' || c = '\t' || c = '\n' || c = '\r'

def skipJsonWs (cs : List Char) : List Char := cs.dropWhile jsonWs

/-- Value of one hexadecimal digit, written over character codes
(48-57 are the decimal digits, 97-102 lower case a-f, 65-70 upper case). -/
def hexVal (c : Char) : Option Nat :=
  let n := c.toNat
  if 48 ≤ n && n ≤ 57 then some (n - 48)
  else if 97 ≤ n && n ≤ 102 then some (n - 87)
  else if 65 ≤ n && n ≤ 70 then some (n - 55)
  else none

/-- Body of a JSON string after the opening quote.  Raw control characters
are rejected (json.loads strict mode); the standard escapes are decoded. -/
def parseStrBody : Nat → List Char → Option (List Char × List Char)
  | 0, _ => none
  | _ + 1, [] => none
  | fuel + 1, c :: rest =>
    if c = '"' then some ([], rest)
    else if c = '\\' then
      match rest with
      | [] => none
      | e :: rest2 =>
        let dec : Option (Char × List Char) :=
          if e = '"' then some ('"', rest2)
          else if e = '\\' then some ('\\', rest2)
          else if e = '/' then some ('/', rest2)
          else if e = 'b' then some ('\x08', rest2)
          else if e = 'f' then some ('\x0c', rest2)
          else if e = 'n' then some ('\n', rest2)
          else if e = 'r' then some ('\r', rest2)
          else if e = 't' then some ('\t', rest2)
          else if e = 'u' then
            match rest2 with
            | h1 :: h2 :: h3 :: h4 :: rest3 =>
              match hexVal h1, hexVal h2, hexVal h3, hexVal h4 with
              | some a, some b, some c3, some d =>
                some (Char.ofNat (((a * 16 + b) * 16 + c3) * 16 + d), rest3)
              | _, _, _, _ => none
            | _ => none
          else none
        match dec with
        | none => none
        | some (ch, rest3) =>
          match parseStrBody fuel rest3 with
          | none => none
          | some (body, rest4) => some (ch :: body, rest4)
    else if c.toNat < 32 then none
    else
      match parseStrBody fuel rest with
      | none => none
      | some (body, rest2) => some (c :: body, rest2)

def isDigit (c : Char) : Bool := 48 ≤ c.toNat && c.toNat ≤ 57

/-- Decimal value of a digit run, accumulator style. -/
def digitsAcc : Nat → List Char → Nat
  | acc, [] => acc
  | acc, d :: ds => digitsAcc (10 * acc + (d.toNat - 48)) ds

def digitsToNat (ds : List Char) : Nat := digitsAcc 0 ds

/-- JSON number grammar: optional minus, integer part with no leading zero,
optional fraction, optional exponent.  The value is returned as a rational. -/
def parseNumber (cs : List Char) : Option (ℚ × List Char) :=
  let (neg, cs1) : Bool × List Char :=
    match cs with
    | '-' :: tl => (true, tl)
    | _ => (false, cs)
  let intPart := cs1.takeWhile isDigit
  let cs2 := cs1.dropWhile isDigit
  if intPart = [] then none
  else if intPart.length > 1 && intPart.headD '0' = '0' then none
  else
    let fracPart : Option (List Char × List Char) :=
      match cs2 with
      | '.' :: rest =>
        if rest.takeWhile isDigit = [] then none
        else some (rest.takeWhile isDigit, rest.dropWhile isDigit)
      | _ => some ([], cs2)
    match fracPart with
    | none => none
    | some (fracDigits, cs3) =>
      let (expOk, expNeg, expDigits, cs4) : Bool × Bool × List Char × List Char :=
        match cs3 with
        | e :: rest =>
          if e = 'e' || e = 'E' then
            let (en, rest2) : Bool × List Char :=
              match rest with
              | '+' :: r => (false, r)
              | '-' :: r => (true, r)
              | _ => (false, rest)
            (rest2.takeWhile isDigit ≠ [], en, rest2.takeWhile isDigit, rest2.dropWhile isDigit)
          else (true, false, [], cs3)
        | [] => (true, false, [], cs3)
      if !expOk then none
      else
        let mantissa : ℚ :=
          (digitsToNat intPart : ℚ) + (digitsToNat fracDigits : ℚ) / (10 : ℚ) ^ fracDigits.length
        let expVal : ℤ := if expNeg then -(digitsToNat expDigits : ℤ) else (digitsToNat expDigits : ℤ)
        let magnitude : ℚ := mantissa * (10 : ℚ) ^ expVal
        some ((if neg then -magnitude else magnitude), cs4)

mutual

/-- One JSON value starting at the current position (leading whitespace
allowed), returning the value and the unconsumed remainder. -/
def parseJsonVal : Nat → List Char → Option (Json × List Char)
  | 0, _ => none
  | fuel + 1, cs =>
    match skipJsonWs cs with
    | [] => none
    | c :: rest =>
      if c = '\x7b' then
        match parseObjItems fuel rest with
        | some (fields, rest2) => some (Json.obj fields, rest2)
        | none => none
      else if c = '[' then
        match parseArrItems fuel rest with
        | some (elems, rest2) => some (Json.arr elems, rest2)
        | none => none
      else if c = '"' then
        match parseStrBody (rest.length + 1) rest with
        | some (body, rest2) => some (Json.str (String.mk body), rest2)
        | none => none
      else if c = 't' then
        if ['r', 'u', 'e'].isPrefixOf rest then some (Json.bool true, rest.drop 3) else none
      else if c = 'f' then
        if ['a', 'l', 's', 'e'].isPrefixOf rest then some (Json.bool false, rest.drop 4) else none
      else if c = 'n' then
        if ['u', 'l', 'l'].isPrefixOf rest then some (Json.null, rest.drop 3) else none
      else
        match parseNumber (c :: rest) with
        | some (q, rest2) => some (Json.num q, rest2)
        | none => none

/-- Array items after the opening bracket. -/
def parseArrItems : Nat → List Char → Option (List Json × List Char)
  | 0, _ => none
  | fuel + 1, cs =>
    match skipJsonWs cs with
    | ']' :: rest => some ([], rest)
    | cs1 =>
      match parseJsonVal fuel cs1 with
      | none => none
      | some (v, rest) =>
        match parseArrRest fuel rest with
        | none => none
        | some (vs, rest2) => some (v :: vs, rest2)

/-- Continuation of an array after one item: comma-separated items until the
closing bracket. -/
def parseArrRest : Nat → List Char → Option (List Json × List Char)
  | 0, _ => none
  | fuel + 1, cs =>
    match skipJsonWs cs with
    | ']' :: rest => some ([], rest)
    | ',' :: rest =>
      match parseJsonVal fuel rest with
      | none => none
      | some (v, rest2) =>
        match parseArrRest fuel rest2 with
        | none => none
        | some (vs, rest3) => some (v :: vs, rest3)
    | _ => none

/-- Object members after the opening brace. -/
def parseObjItems : Nat → List Char → Option (List (String × Json) × List Char)
  | 0, _ => none
  | fuel + 1, cs =>
    match skipJsonWs cs with
    | '\x7d' :: rest => some ([], rest)
    | cs1 =>
      match parseObjMember fuel cs1 with
      | none => none
      | some (kv, rest) =>
        match parseObjRest fuel rest with
        | none => none
        | some (kvs, rest2) => some (kv :: kvs, rest2)

/-- One key-value member: a string key, a colon, a value. -/
def parseObjMember : Nat → List Char → Option ((String × Json) × List Char)
  | 0, _ => none
  | fuel + 1, cs =>
    match skipJsonWs cs with
    | '"' :: rest =>
      match parseStrBody (rest.length + 1) rest with
      | none => none
      | some (key, rest2) =>
        match skipJsonWs rest2 with
        | ':' :: rest3 =>
          match parseJsonVal fuel rest3 with
          | none => none
          | some (v, rest4) => some ((String.mk key, v), rest4)
        | _ => none
    | _ => none

/-- Continuation of an object after one member: comma-separated members
until the closing brace. -/
def parseObjRest : Nat → List Char → Option (List (String × Json) × List Char)
  | 0, _ => none
  | fuel + 1, cs =>
    match skipJsonWs cs with
    | '\x7d' :: rest => some ([], rest)
    | ',' :: rest =>
      match parseObjMember fuel rest with
      | none => none
      | some (kv, rest2) =>
        match parseObjRest fuel rest2 with
        | none => none
        | some (kvs, rest3) => some (kv :: kvs, rest3)
    | _ => none

end

/-- Model of Python json.loads: parse one document and require only
whitespace to remain.  The fuel is generous: every recursive step either
consumes input or moves to a strictly smaller sub-task. -/
def pyJsonLoads (s : String) : Option Json :=
  let cs := s.data
  match parseJsonVal (4 * cs.length + 8) cs with
  | some (j, rest) => if skipJsonWs rest = [] then some j else none
  | none => none

/-! ## Dict access helpers

Python dict built by json.loads: duplicate keys keep the last binding, and
dict.get returns a default when the key is absent. -/

/-- Python dict lookup on the field list of a JSON object (last binding
wins, as json.loads keeps the last duplicate key). -/
def pyObjGet (fields : List (String × Json)) (k : String) : Option Json :=
  match fields with
  | [] => none
  | (k1, v) :: rest =>
    match pyObjGet rest k with
    | some r => some r
    | none => if k1 = k then some v else none

/-- Python dict.get with a default value. -/
def pyGetD (fields : List (String × Json)) (k : String) (dflt : Json) : Json :=
  (pyObjGet fields k).getD dflt

/-- Python iteration over the value returned by dict.get: lists iterate
their elements, strings their characters, dicts their keys; other values
raise TypeError (modelled as none). -/
def pyIter : Json → Option (List Json)
  | .arr xs => some xs
  | .str s => some (s.data.map (fun c => Json.str (String.mk [c])))
  | .obj f => some (f.map (fun kv => Json.str kv.1))
  | _ => none

/-- Pydantic str field: accepts exactly a string. -/
def asStr : Json → Option String
  | .str s => some s
  | _ => none

/-- Pydantic Optional str field: accepts None or a string. -/
def asOptStr : Json → Option (Option String)
  | .null => some none
  | .str s => some (some s)
  | _ => none

/-- Pydantic int field: accepts an integral number. -/
def asIntJ : Json → Option Int
  | .num q => if q.den = 1 then some q.num else none
  | _ => none

/-- Pydantic Optional int field: accepts None or an integral number. -/
def asOptInt : Json → Option (Option Int)
  | .null => some none
  | .num q => if q.den = 1 then some (some q.num) else none
  | _ => none

/-- Pydantic bool field: accepts exactly a boolean. -/
def asBoolJ : Json → Option Bool
  | .bool b => some b
  | _ => none

/-- The field list of a JSON object; any other value means the Python code
would raise AttributeError on a .get call (modelled as none). -/
def asObjFields : Json → Option (List (String × Json))
  | .obj f => some f
  | _ => none

/-! ## Data model (app/models/schemas.py) -/

structure LineExplanation where
  line_number : Int
  code : String
  explanation : String
  complexity_note : Option String
  is_key_line : Bool
deriving DecidableEq

structure ComplexityInfo where
  notation_str : String
  explanation : String
deriving DecidableEq

structure Complexity where
  time : ComplexityInfo
  space : ComplexityInfo
deriving DecidableEq

structure EdgeCase where
  case : String
  handled : Bool
  how : String
  line_reference : Option Int
deriving DecidableEq

structure CommonMistake where
  mistake : String
  why_wrong : String
  how_avoided : String
deriving DecidableEq

structure AlternativeApproach where
  name : String
  time_complexity : String
  space_complexity : String
  when_to_use : String
  code_snippet : Option String
deriving DecidableEq

structure SolutionData where
  code : String
  language : String
  lines : List LineExplanation
  complexity : Complexity
  edge_cases : List EdgeCase
  common_mistakes : List CommonMistake
  alternative_approaches : List AlternativeApproach
  test_results : List String
deriving DecidableEq

/-! ## The extraction-strategy ladder (ClaudeService extract json) -/

/-- Strategy 1: parse the whole trimmed text as one JSON document. -/
def strategy1 (content : String) : Option Json := pyJsonLoads (pyStrip content)

/-- The regex brace-to-brace search: leftmost match of an opening brace,
anything, closing brace, with a greedy middle — i.e. the substring from the
first opening brace to the last closing brace after it. -/
def braceSpan (cs : List Char) : Option (List Char) :=
  match cs.dropWhile (fun c => c ≠ '\x7b') with
  | [] => none
  | c :: rest =>
    match rest.reverse.dropWhile (fun x => x ≠ '\x7d') with
    | [] => none
    | r :: rs => some (c :: (r :: rs).reverse)

/-- Strategy 2: find a JSON object between the first opening brace and the
last closing brace and parse that substring. -/
def strategy2 (content : String) : Option Json :=
  (braceSpan content.data).bind (fun cs => pyJsonLoads (String.mk cs))

/-- Non-overlapping left-to-right substitution deleting a literal followed
by a maximal whitespace run (the markdown-fence cleanup regexes).  Fuel
decreases every step and the initial fuel always suffices. -/
def subLitWsFuel (lit : List Char) : Nat → List Char → List Char
  | 0, cs => cs
  | _ + 1, [] => []
  | fuel + 1, c :: rest =>
    if lit.isPrefixOf (c :: rest) then
      subLitWsFuel lit fuel (((c :: rest).drop lit.length).dropWhile pyIsSpace)
    else c :: subLitWsFuel lit fuel rest

def subLitWs (lit : List Char) (cs : List Char) : List Char :=
  subLitWsFuel lit (cs.length + 1) cs

/-- Non-overlapping left-to-right substitution replacing a comma, optional
whitespace and a closer by the closer alone (the trailing-comma cleanup
regexes). -/
def subCommaCloseFuel (close : Char) : Nat → List Char → List Char
  | 0, cs => cs
  | _ + 1, [] => []
  | fuel + 1, c :: rest =>
    if c = ',' then
      match rest.dropWhile pyIsSpace with
      | c2 :: r2 =>
        if c2 = close then close :: subCommaCloseFuel close fuel r2
        else c :: subCommaCloseFuel close fuel rest
      | [] => c :: subCommaCloseFuel close fuel rest
    else c :: subCommaCloseFuel close fuel rest

def subCommaClose (close : Char) (cs : List Char) : List Char :=
  subCommaCloseFuel close (cs.length + 1) cs

/-- Strategy 3 cleanup: strip the text, remove fenced-block markers with
trailing whitespace, then rewrite comma-whitespace-closer into the closer. -/
def cleanContent (content : String) : List Char :=
  let cs := pyStripList content.data
  let cs := subLitWs "```json".data cs
  let cs := subLitWs "```".data cs
  let cs := subCommaClose '\x7d' cs
  subCommaClose ']' cs

/-- Strategy 3: clean common issues then retry the brace-to-brace parse. -/
def strategy3 (content : String) : Option Json :=
  (braceSpan (cleanContent content)).bind (fun cs => pyJsonLoads (String.mk cs))

/-- The code-salvage regex matched at the current position: the literal
quoted key code, optional whitespace, a colon, optional whitespace, an
opening quote, then a capture ending at the next quote (the escape-aware
alternative in the pattern never extends the greedy non-quote run, since
the zero-iteration branch already lets the overall match succeed). -/
def codeFieldAt (cs : List Char) : Option (List Char) :=
  if ("\"code\"".data).isPrefixOf cs then
    match (cs.drop 6).dropWhile pyIsSpace with
    | ':' :: r2 =>
      match r2.dropWhile pyIsSpace with
      | '"' :: r4 =>
        let cap := r4.takeWhile (fun c => c ≠ '"')
        match r4.drop cap.length with
        | '"' :: _ => some cap
        | _ => none
      | _ => none
    | _ => none
  else none

/-- The regex search: try the salvage pattern at every position left to
right and return the first capture. -/
def searchCodeField : List Char → Option (List Char)
  | [] => none
  | c :: rest =>
    match codeFieldAt (c :: rest) with
    | some cap => some cap
    | none => searchCodeField rest

/-- The loop of build minimal response: enumerate the split lines from 1,
keep the lines that are non-blank after stripping, and record each kept
line under its enumeration index with an empty explanation and key-line
flag false (as a JSON dict). -/
def minimalLineObjs : Nat → List (List Char) → List Json
  | _, [] => []
  | i, l :: ls =>
    if pyStripList l = [] then minimalLineObjs (i + 1) ls
    else
      Json.obj [("line_number", Json.num (i : ℚ)), ("code", Json.str (String.mk l)),
        ("explanation", Json.str ""), ("is_key_line", Json.bool false)]
        :: minimalLineObjs (i + 1) ls

/-- ClaudeService build minimal response: a minimal valid response dict
around the salvaged code. -/
def build_minimal_response (code : String) : Json :=
  Json.obj
    [("code", Json.str code),
     ("lines", Json.arr (minimalLineObjs 1 (splitNl code.data))),
     ("complexity", Json.obj
       [("time", Json.obj [("notation", Json.str "O(?)"), ("explanation", Json.str "Analysis pending")]),
        ("space", Json.obj [("notation", Json.str "O(?)"), ("explanation", Json.str "Analysis pending")])]),
     ("edge_cases", Json.arr []),
     ("common_mistakes", Json.arr []),
     ("alternative_approaches", Json.arr [])]

/-- Strategy 4: regex-salvage a quoted code field from otherwise malformed
text and build the minimal response. -/
def strategy4 (content : String) : Option Json :=
  (searchCodeField content.data).map (fun cap => build_minimal_response (String.mk cap))

/-- The line-collecting loop of strategy 5: once a line whose strip starts
with a function or class definition marker is seen, that line and every
later line are collected. -/
def collectCode : List (List Char) → Bool → List (List Char)
  | [], _ => []
  | l :: ls, inCode =>
    if ("def ".data).isPrefixOf (pyStripList l)
        || ("class ".data).isPrefixOf (pyStripList l) || inCode then
      l :: collectCode ls true
    else collectCode ls inCode

/-- Strategy 5: if the text contains a definition-like marker, treat
everything from the first marker line onward as the code body and build the
minimal response; fail when no line qualifies. -/
def strategy5 (content : String) : Option Json :=
  if isSubstr "def ".data content.data || isSubstr "class ".data content.data then
    match collectCode (splitNl content.data) false with
    | [] => none
    | l :: ls => some (build_minimal_response (String.mk (joinNl (l :: ls))))
  else none

/-- ClaudeService extract json: the ordered fallback ladder, first success
wins; exhaustion raises ValueError (modelled as none). -/
def extract_json (content : String) : Option Json :=
  match strategy1 content with
  | some j => some j
  | none =>
    match strategy2 content with
    | some j => some j
    | none =>
      match strategy3 content with
      | some j => some j
      | none =>
        match strategy4 content with
        | some j => some j
        | none => strategy5 content

/-! ## Typed record construction (ClaudeService parse solution response) -/

/-- One entry of the lines list: non-dict entries are skipped by the caller;
a dict entry is read with defaults and validated by the pydantic model. -/
def parseLineJ (f : List (String × Json)) : Option LineExplanation := do
  let ln ← asIntJ (pyGetD f "line_number" (Json.num 0))
  let cd ← asStr (pyGetD f "code" (Json.str ""))
  let ex ← asStr (pyGetD f "explanation" (Json.str ""))
  let cn ← asOptStr (pyGetD f "complexity_note" Json.null)
  let ik ← asBoolJ (pyGetD f "is_key_line" (Json.bool false))
  some ⟨ln, cd, ex, cn, ik⟩

/-- The lines loop: iterate, keep dict entries only, validate each. -/
def parseLines : List Json → Option (List LineExplanation)
  | [] => some []
  | Json.obj f :: rest => do
    let le ← parseLineJ f
    let r ← parseLines rest
    some (le :: r)
  | _ :: rest => parseLines rest

/-- The complexity block: nested dict.get reads with O(?) defaults; a
non-dict at either level raises (modelled as none). -/
def parseComplexityJ (cd : Json) : Option Complexity := do
  let cdf ← asObjFields cd
  let tf ← asObjFields (pyGetD cdf "time" (Json.obj []))
  let sf ← asObjFields (pyGetD cdf "space" (Json.obj []))
  let tn ← asStr (pyGetD tf "notation" (Json.str "O(?)"))
  let te ← asStr (pyGetD tf "explanation" (Json.str ""))
  let sn ← asStr (pyGetD sf "notation" (Json.str "O(?)"))
  let se ← asStr (pyGetD sf "explanation" (Json.str ""))
  some ⟨⟨tn, te⟩, ⟨sn, se⟩⟩

def parseEdgeJ (f : List (String × Json)) : Option EdgeCase := do
  let cs ← asStr (pyGetD f "case" (Json.str ""))
  let hd ← asBoolJ (pyGetD f "handled" (Json.bool true))
  let hw ← asStr (pyGetD f "how" (Json.str ""))
  let lr ← asOptInt (pyGetD f "line_reference" Json.null)
  some ⟨cs, hd, hw, lr⟩

def parseEdges : List Json → Option (List EdgeCase)
  | [] => some []
  | Json.obj f :: rest => do
    let e ← parseEdgeJ f
    let r ← parseEdges rest
    some (e :: r)
  | _ :: rest => parseEdges rest

def parseMistakeJ (f : List (String × Json)) : Option CommonMistake := do
  let mk ← asStr (pyGetD f "mistake" (Json.str ""))
  let ww ← asStr (pyGetD f "why_wrong" (Json.str ""))
  let ha ← asStr (pyGetD f "how_avoided" (Json.str ""))
  some ⟨mk, ww, ha⟩

def parseMistakes : List Json → Option (List CommonMistake)
  | [] => some []
  | Json.obj f :: rest => do
    let m ← parseMistakeJ f
    let r ← parseMistakes rest
    some (m :: r)
  | _ :: rest => parseMistakes rest

def parseAltJ (f : List (String × Json)) : Option AlternativeApproach := do
  let nm ← asStr (pyGetD f "name" (Json.str ""))
  let tc ← asStr (pyGetD f "time_complexity" (Json.str ""))
  let sc ← asStr (pyGetD f "space_complexity" (Json.str ""))
  let wu ← asStr (pyGetD f "when_to_use" (Json.str ""))
  let sn ← asOptStr (pyGetD f "code_snippet" Json.null)
  some ⟨nm, tc, sc, wu, sn⟩

def parseAlts : List Json → Option (List AlternativeApproach)
  | [] => some []
  | Json.obj f :: rest => do
    let a ← parseAltJ f
    let r ← parseAlts rest
    some (a :: r)
  | _ :: rest => parseAlts rest

/-- Field extraction of parse solution response once extraction produced a
value: a non-dict top level raises when .get is called (none); list fields
default to empty, the code string defaults to empty, language is fixed to
python and test results start empty. -/
def parseSolutionFromJson : Json → Option SolutionData
  | Json.obj f => do
    let lineItems ← pyIter (pyGetD f "lines" (Json.arr []))
    let lines ← parseLines lineItems
    let complexity ← parseComplexityJ (pyGetD f "complexity" (Json.obj []))
    let ecItems ← pyIter (pyGetD f "edge_cases" (Json.arr []))
    let edge_cases ← parseEdges ecItems
    let cmItems ← pyIter (pyGetD f "common_mistakes" (Json.arr []))
    let common_mistakes ← parseMistakes cmItems
    let aaItems ← pyIter (pyGetD f "alternative_approaches" (Json.arr []))
    let alternative_approaches ← parseAlts aaItems
    let code ← asStr (pyGetD f "code" (Json.str ""))
    some ⟨code, "python", lines, complexity, edge_cases, common_mistakes,
      alternative_approaches, []⟩
  | _ => none

/-- ClaudeService parse solution response: run the extraction ladder, then
build the typed record with per-field defaulting. -/
def parse_solution_response (content : String) : Option SolutionData :=
  (extract_json content).bind parseSolutionFromJson

/-! ## Reference forms of the minimal record (for the line-numbering claims)

minimalRecLines is the typed image of the build minimal response loop;
claimLinesSpec numbers the kept lines consecutively from 1 as the claim
words it; amendedLinesSpec numbers each kept line by its 1-based position
among all split lines. -/

/-- Typed form of the minimal-response line loop: enumerate from the given
counter, skip blank lines, keep the counter value of each kept line. -/
def minimalRecLines : Nat → List (List Char) → List LineExplanation
  | _, [] => []
  | i, l :: ls =>
    if pyStripList l = [] then minimalRecLines (i + 1) ls
    else ⟨(i : Int), String.mk l, "", none, false⟩ :: minimalRecLines (i + 1) ls

/-- The typed record that the minimal response parses to. -/
def minimalSolution (code : String) : SolutionData :=
  ⟨code, "python", minimalRecLines 1 (splitNl code.data),
    ⟨⟨"O(?)", "Analysis pending"⟩, ⟨"O(?)", "Analysis pending"⟩⟩, [], [], [], []⟩

/-- The claim reading: split on line breaks, skip blank lines, then number
the kept entries consecutively 1, 2, 3, ... -/
def claimLinesSpec (code : String) : List LineExplanation :=
  (((splitNl code.data).filter (fun l => !(pyStripList l).isEmpty)).enumFrom 1).map
    (fun p => ⟨(p.1 : Int), String.mk p.2, "", none, false⟩)

/-- The amended reading: number every split line by its 1-based position,
then keep the non-blank ones (blank lines consume numbers). -/
def amendedLinesSpec (code : String) : List LineExplanation :=
  (((splitNl code.data).enumFrom 1).filter (fun p => !(pyStripList p.2).isEmpty)).map
    (fun p => ⟨(p.1 : Int), String.mk p.2, "", none, false⟩)

/-! ## Response envelope (app/models/schemas.py, app/api/routes.py) -/

structure ResponseMetadata where
  request_id : String
  mode : String
  primary_model : String
  verification_model : Option String
  verification_status : Option String
  generated_at : Int
  latency_ms : Int
  cached : Bool
  cost_estimate_usd : Option ℚ
deriving DecidableEq

structure AnalyzeResponse where
  success : Bool
  data : SolutionData
  metadata : ResponseMetadata
  warnings : List String
deriving DecidableEq

/-! ## Result cache (app/api/routes.py)

The module-level dict mapping cache key to (response, timestamp) becomes an
association list in dict insertion order; timestamps are integers standing
for time.time() readings.  The module constants are CACHE_MAX_SIZE = 1000
and settings.cache_ttl_seconds (default 86400); the operations take the
capacity and TTL as parameters so the theorems cover any configured value. -/

abbrev CacheState := List (String × AnalyzeResponse × Int)

/-- The source constant CACHE_MAX_SIZE. -/
def CACHE_MAX_SIZE : Nat := 1000

/-- The settings default cache_ttl_seconds. -/
def DEFAULT_CACHE_TTL : Int := 86400

/-- Python key-in-dict plus indexing: the binding for a key (keys are
unique by construction of the operations below). -/
def dictLookup (k : String) (c : CacheState) : Option (AnalyzeResponse × Int) :=
  (c.find? (fun e => e.1 == k)).map (fun e => e.2)

/-- Python dict assignment: overwrite in place if present, else append. -/
def dictSet (k : String) (v : AnalyzeResponse × Int) : CacheState → CacheState
  | [] => [(k, v)]
  | e :: rest => if e.1 = k then (k, v) :: rest else e :: dictSet k v rest

/-- Python del on a dict: remove the binding for a key. -/
def dictDel (k : String) : CacheState → CacheState
  | [] => []
  | e :: rest => if e.1 = k then rest else e :: dictDel k rest

/-- One step of Python min over keys ordered by stored timestamp: replace
the current best only on a strictly smaller timestamp, so the first minimal
entry in iteration order wins, as min does. -/
def oldestStep (best e : String × AnalyzeResponse × Int) : String × AnalyzeResponse × Int :=
  if e.2.2 < best.2.2 then e else best

/-- Python min of the cache keys by insertion timestamp (none on an empty
dict, where min would raise). -/
def oldestEntry : CacheState → Option (String × AnalyzeResponse × Int)
  | [] => none
  | e :: rest => some (rest.foldl oldestStep e)

/-- Routes get from cache: hit while the age is strictly under the TTL;
an expired entry is deleted as part of the read and the read misses;
an absent key misses.  Returns the observed value and the store after the
read. -/
def get_from_cache (now ttl : Int) (key : String) (c : CacheState) :
    Option AnalyzeResponse × CacheState :=
  match dictLookup key c with
  | none => (none, c)
  | some (resp, ts) => if now - ts < ttl then (some resp, c) else (none, dictDel key c)

/-- Routes set cache: when the current size has reached the capacity, evict
the entry with the smallest insertion timestamp, then insert the new entry
at the current time (overwriting any binding for the same key). -/
def set_cache (maxSize : Nat) (now : Int) (key : String) (resp : AnalyzeResponse)
    (c : CacheState) : CacheState :=
  let c1 :=
    if maxSize ≤ c.length then
      match oldestEntry c with
      | some e => dictDel e.1 c
      | none => c
    else c
  dictSet key (resp, now) c1

/-! ## The cache-hit path of the analyze route

On a hit the route assigns into the cached response object before returning
it: metadata.request_id is set to the current request id and
metadata.cached to true.  The stored tuple keeps referencing that same
object, so the store now holds the mutated value; this is modelled by
rewriting the binding in place (its timestamp is untouched). -/

/-- The two in-place metadata assignments performed on a cache hit. -/
def cacheHitMutate (rid : String) (r : AnalyzeResponse) : AnalyzeResponse :=
  { r with metadata := { r.metadata with request_id := rid, cached := true } }

/-- Rewrite the value stored under a key in place, keeping its timestamp. -/
def dictMutateVal (k : String) (f : AnalyzeResponse → AnalyzeResponse) :
    CacheState → CacheState
  | [] => []
  | (k1, v, ts) :: rest =>
    if k1 = k then (k1, f v, ts) :: rest else (k1, v, ts) :: dictMutateVal k f rest

/-- The cache-lookup prefix of the analyze route: read the cache and, on a
hit, mutate the stored response for the current request before returning
it. -/
def analyzeCacheHit (now ttl : Int) (rid key : String) (c : CacheState) :
    Option AnalyzeResponse × CacheState :=
  match get_from_cache now ttl key c with
  | (none, c1) => (none, c1)
  | (some r, c1) => (some (cacheHitMutate rid r), dictMutateVal key (cacheHitMutate rid) c1)

/-! ## Cache scenario drivers (used to state the claims) -/

/-- Insert a sequence of keys one per clock tick, all carrying the same
response (the eviction claims only depend on keys and timestamps). -/
def insertSeq (maxSize : Nat) (v : AnalyzeResponse) : List String → Int → CacheState → CacheState
  | [], _, c => c
  | k :: ks, t, c => insertSeq maxSize v ks (t + 1) (set_cache maxSize t k v c)

/-- The expected store contents after consecutive fresh inserts: each key
bound to the shared response and consecutive timestamps from the start
time. -/
def stampFrom (v : AnalyzeResponse) : List String → Int → CacheState
  | [], _ => []
  | k :: ks, t => (k, v, t) :: stampFrom v ks (t + 1)

/-- The entry components never touched by the cache-hit mutation: the key,
the solution payload, the success flag, the warnings, and the insertion
timestamp. -/
def entryStableParts (e : String × AnalyzeResponse × Int) :
    String × SolutionData × Bool × List String × Int :=
  (e.1, e.2.1.data, e.2.1.success, e.2.1.warnings, e.2.2)

/-! ## Remote call executor (ClaudeService call with retry) -/

/-- The anthropic exception classes distinguished by the retry loop. -/
inductive ApiError where
  | rateLimit : ApiError
  | connection : ApiError
  | status (code : Nat) : ApiError
deriving DecidableEq

/-- Result of one remote call attempt. -/
inductive Outcome (α : Type) where
  | ok (payload : α) : Outcome α
  | err (e : ApiError) : Outcome α
deriving DecidableEq

/-- Failure classification of the retry loop: rate limits and connection
errors are always retried; a status error is retried exactly when its code
is in the 5xx range and above. -/
def isTransient : ApiError → Bool
  | .rateLimit => true
  | .connection => true
  | .status code => 500 ≤ code

/-- The source constants of ClaudeService. -/
def MAX_RETRIES : Nat := 3

def BASE_DELAY : ℚ := 1

/-- The retry loop body: attempt index i, remaining loop iterations,
accumulated sleep time, attempts made so far, and the last transient error
for the final re-raise (None before the first failure, as in the source).
A success returns immediately; a transient failure sleeps base times two to
the attempt index and continues; a permanent failure re-raises at once.
Returns (result, total delay slept, attempts made). -/
def callAux {α : Type} (op : Nat → Outcome α) :
    Option ApiError → Nat → Nat → ℚ → Nat → Except (Option ApiError) α × ℚ × Nat
  | lastErr, _, 0, acc, cnt => (.error lastErr, acc, cnt)
  | _lastErr, i, rem + 1, acc, cnt =>
    match op i with
    | .ok p => (.ok p, acc, cnt + 1)
    | .err e =>
      if isTransient e then
        callAux op (some e) (i + 1) rem (acc + BASE_DELAY * 2 ^ i) (cnt + 1)
      else (.error (some e), acc, cnt + 1)

/-- ClaudeService call with retry: at most MAX_RETRIES attempts with
exponential backoff. -/
def call_with_retry {α : Type} (op : Nat → Outcome α) :
    Except (Option ApiError) α × ℚ × Nat :=
  callAux op none 0 MAX_RETRIES 0 0

/-! ## Verification and escalation (openai_service.py, routes.analyze_problem) -/

inductive ExecutionMode where
  | fast : ExecutionMode
  | verified : ExecutionMode
  | comprehensive : ExecutionMode
deriving DecidableEq

def modeStr : ExecutionMode → String
  | .fast => "fast"
  | .verified => "verified"
  | .comprehensive => "comprehensive"

/-- A raw issue dict from the reviewer payload: only the two keys the route
reads, each possibly absent (dict.get then yields None). -/
structure Issue where
  severity : Option String
  description : Option String
deriving DecidableEq

structure VerificationResult where
  is_correct : Bool
  issues : List Issue
  edge_cases_missing : List String
  optimization_suggestions : List String
  overall_score : Int
deriving DecidableEq

/-- The status property of VerificationResult. -/
def verificationStatus (v : VerificationResult) : String :=
  if v.overall_score ≥ 90 then "passed"
  else if v.overall_score ≥ 70 then "passed_with_warnings"
  else "failed"

/-- Python str applied to an optional string (None prints as None). -/
def pyStrOfOpt : Option String → String
  | some s => s
  | none => "None"

/-- The warnings collected from reviewer issues: one warning per issue of
severity error. -/
def errorIssueWarnings (issues : List Issue) : List String :=
  issues.filterMap (fun i =>
    if i.severity = some "error" then
      some ("Verification issue: " ++ pyStrOfOpt i.description)
    else none)

/-- The verification and escalation block of the analyze route.  Inputs:
the mode, the original problem statement, the initial record, the reviewer
call outcome (failure carries the exception text), the generator invoked
for the refinement round, and the rendering of the issues list into the
remediation note (Python formats the list of dicts into the f-string).
Output: the final record, the verification status, the warnings list, and
the list of refinement prompts issued (one entry per re-generation). -/
def escalate (mode : ExecutionMode) (problem : String) (sol : SolutionData)
    (reviewer : Except String VerificationResult)
    (regen : String → SolutionData) (render : List Issue → String) :
    SolutionData × Option String × List String × List String :=
  if mode = .verified ∨ mode = .comprehensive then
    match reviewer with
    | .error e => (sol, some "skipped", ["Verification skipped: " ++ e], [])
    | .ok v =>
      let ws := errorIssueWarnings v.issues
      if mode = .comprehensive ∧ v.issues ≠ [] then
        let prompt := problem ++ "\n\nNote: Address these issues: " ++ render v.issues
        (regen prompt, some (verificationStatus v), ws, [prompt])
      else (sol, some (verificationStatus v), ws, [])
  else (sol, none, [], [])

/-- The fixed per-mode cost estimate of the analyze route. -/
def costEstimate : ExecutionMode → ℚ
  | .fast => 0.02
  | .verified => 0.04
  | .comprehensive => 0.08

/-- The success response assembled by the analyze route (success is the
literal true; cached is false on the generation path). -/
def mkAnalyzeResponse (rid : String) (mode : ExecutionMode) (primary : String)
    (vmodel vstatus : Option String) (genAt latency : Int)
    (sol : SolutionData) (warnings : List String) : AnalyzeResponse :=
  { success := true, data := sol,
    metadata :=
      { request_id := rid, mode := modeStr mode, primary_model := primary,
        verification_model := vmodel, verification_status := vstatus,
        generated_at := genAt, latency_ms := latency, cached := false,
        cost_estimate_usd := some (costEstimate mode) },
    warnings := warnings }

/-! ## OCR confidence estimate (ClaudeService estimate ocr confidence) -/

/-- Confidence heuristic: 0 for empty text; otherwise start at 1, subtract
0.2 for texts shorter than 50 characters, subtract a further 0.15 for
texts of fewer than 10 whitespace-separated words, then clamp into
[0.5, 1]. -/
def estimate_ocr_confidence (text : String) : ℚ :=
  if text = "" then 0
  else
    let confidence : ℚ := 1
    let confidence := if text.length < 50 then confidence - 0.2 else confidence
    let confidence := if (pyWords text.data).length < 10 then confidence - 0.15 else confidence
    max 0.5 (min 1 confidence)

/-- A concrete response used to instantiate the cache theorems. -/
def sampleResponse : AnalyzeResponse :=
  AnalyzeResponse.mk true (minimalSolution "x=1")
    (ResponseMetadata.mk "r0" "fast" "claude" none none 0 5 false (some 0.02)) []

/-! # Theorems -/

/-! ## Remote call executor (claims C5, C6) -/

/-- C5: an operation that fails with a transient classification on its
first two attempts and succeeds on the third makes exactly three attempts,
returns the success payload, and sleeps 1 + 2 = 3 time units in total
(base delay 1, delay 2 to the power of the 0-based attempt index before
each retry). -/
theorem retry_transient_twice_then_success {α : Type} (op : Nat → Outcome α)
    (e0 e1 : ApiError) (p : α)
    (h0 : op 0 = .err e0) (ht0 : isTransient e0 = true)
    (h1 : op 1 = .err e1) (ht1 : isTransient e1 = true)
    (h2 : op 2 = .ok p) :
    call_with_retry op = (.ok p, 3, 3) := by
  simp [call_with_retry, MAX_RETRIES, callAux, h0, h1, h2, ht0, ht1, BASE_DELAY]
  norm_num

theorem retry_transient_twice_then_success_witness :
    call_with_retry (fun i => if i < 2 then Outcome.err .rateLimit else Outcome.ok 42)
      = (.ok 42, 3, 3) :=
  retry_transient_twice_then_success
    (fun i => if i < 2 then Outcome.err .rateLimit else Outcome.ok 42)
    .rateLimit .rateLimit 42 rfl rfl rfl rfl rfl

/-- C6: a permanent failure classification (a status error below the 5xx
class; rate limits are a distinct class) is propagated immediately: one
attempt, zero retries, zero delay. -/
theorem retry_permanent_immediate {α : Type} (op : Nat → Outcome α) (code : Nat)
    (h0 : op 0 = .err (.status code)) (hc : code < 500) :
    call_with_retry op = (.error (some (.status code)), 0, 1) := by
  have ht : isTransient (.status code) = false := by
    simp [isTransient]; omega
  simp [call_with_retry, MAX_RETRIES, callAux, h0, ht]

theorem retry_permanent_immediate_witness :
    call_with_retry (fun _ => (Outcome.err (.status 404) : Outcome Nat))
      = (.error (some (.status 404)), 0, 1) :=
  retry_permanent_immediate (fun _ => (Outcome.err (.status 404) : Outcome Nat))
    404 rfl (by omega)

/-! ## OCR confidence (claim C10) -/

/-- C10: the confidence estimate is 0 exactly on empty text; on non-empty
text it is the start value 1 reduced by 0.2 for short texts and by a
further 0.15 for texts with few words, clamped into [0.5, 1] — so it
always lies in that closed interval. -/
theorem ocr_confidence_bounds (t : String) :
    (t = "" → estimate_ocr_confidence t = 0)
    ∧ (t ≠ "" →
        estimate_ocr_confidence t =
          (if t.length < 50 then
             if (pyWords t.data).length < 10 then (0.65 : ℚ) else 0.8
           else if (pyWords t.data).length < 10 then 0.85 else 1)
        ∧ (0.5 : ℚ) ≤ estimate_ocr_confidence t
        ∧ estimate_ocr_confidence t ≤ 1) := by
  constructor
  · intro h; simp [estimate_ocr_confidence, h]
  · intro h
    by_cases hl : t.length < 50 <;> by_cases hw : (pyWords t.data).length < 10 <;>
      simp only [estimate_ocr_confidence, h, if_false, hl, hw, if_true] <;>
      norm_num [max_def, min_def]

theorem ocr_confidence_bounds_witness :
    estimate_ocr_confidence "" = 0
    ∧ estimate_ocr_confidence "x" =
        (if ("x" : String).length < 50 then
           if (pyWords ("x" : String).data).length < 10 then (0.65 : ℚ) else 0.8
         else if (pyWords ("x" : String).data).length < 10 then 0.85 else 1)
    ∧ (0.5 : ℚ) ≤ estimate_ocr_confidence "x"
    ∧ estimate_ocr_confidence "x" ≤ 1 :=
  ⟨(ocr_confidence_bounds "").1 rfl, (ocr_confidence_bounds "x").2 (by decide)⟩

/-! ## Escalation controller (claims C7, C8) -/

/-- C7: in verified or comprehensive mode, a reviewer failure degrades
gracefully: one warning is appended, the verification status becomes
skipped, the record returned is the original record unchanged, no
refinement prompt is issued, and the response envelope built from this
outcome still reports success. -/
theorem reviewer_failure_degrades_gracefully (mode : ExecutionMode) (problem : String)
    (sol : SolutionData) (e : String) (regen : String → SolutionData)
    (render : List Issue → String) (rid primary : String) (genAt latency : Int)
    (h : mode = .verified ∨ mode = .comprehensive) :
    escalate mode problem sol (.error e) regen render
        = (sol, some "skipped", ["Verification skipped: " ++ e], [])
      ∧ (mkAnalyzeResponse rid mode primary none (some "skipped") genAt latency sol
          ["Verification skipped: " ++ e]).success = true := by
  refine ⟨?_, rfl⟩
  unfold escalate
  rw [if_pos h]

theorem reviewer_failure_degrades_gracefully_witness :
    escalate .verified "p" (minimalSolution "x=1") (.error "boom")
        (fun s => minimalSolution s) (fun _ => "issues")
      = (minimalSolution "x=1", some "skipped", ["Verification skipped: " ++ "boom"], [])
    ∧ (mkAnalyzeResponse "rid" .verified "claude" none (some "skipped") 0 5
        (minimalSolution "x=1") ["Verification skipped: " ++ "boom"]).success = true :=
  reviewer_failure_degrades_gracefully .verified "p" (minimalSolution "x=1") "boom"
    (fun s => minimalSolution s) (fun _ => "issues") "rid" "claude" 0 5 (Or.inl rfl)

/-- C8: in comprehensive mode, when the reviewer reports at least one
issue, generation is re-invoked exactly once, on the original problem
statement with the issues appended as remediation guidance, and the record
is replaced by the new result; and in every execution of the controller at
most one refinement prompt is ever issued. -/
theorem comprehensive_single_refinement (problem : String) (sol : SolutionData)
    (v : VerificationResult) (regen : String → SolutionData)
    (render : List Issue → String) (hiss : v.issues ≠ []) :
    escalate .comprehensive problem sol (.ok v) regen render
        = (regen (problem ++ "\n\nNote: Address these issues: " ++ render v.issues),
           some (verificationStatus v), errorIssueWarnings v.issues,
           [problem ++ "\n\nNote: Address these issues: " ++ render v.issues])
      ∧ ∀ (mode : ExecutionMode) (sol2 : SolutionData)
          (reviewer : Except String VerificationResult),
          ((escalate mode problem sol2 reviewer regen render).2.2.2).length ≤ 1 := by
  constructor
  · simp [escalate, hiss]
  · intro mode sol2 reviewer
    unfold escalate
    split
    · cases reviewer with
      | error e => simp
      | ok v2 =>
        simp only []
        split <;> simp
    · simp

theorem comprehensive_single_refinement_witness :
    escalate .comprehensive "p" (minimalSolution "x=1")
        (.ok ⟨true, [⟨some "error", some "bad"⟩], [], [], 50⟩)
        (fun s => minimalSolution s) (fun _ => "issues-repr")
      = (minimalSolution ("p" ++ "\n\nNote: Address these issues: " ++ "issues-repr"),
         some (verificationStatus ⟨true, [⟨some "error", some "bad"⟩], [], [], 50⟩),
         errorIssueWarnings [⟨some "error", some "bad"⟩],
         ["p" ++ "\n\nNote: Address these issues: " ++ "issues-repr"]) :=
  (comprehensive_single_refinement "p" (minimalSolution "x=1")
    ⟨true, [⟨some "error", some "bad"⟩], [], [], 50⟩
    (fun s => minimalSolution s) (fun _ => "issues-repr") (by decide)).1

/-! ## Dictionary lemmas for the cache -/

theorem dictLookup_dictSet_self (k : String) (v : AnalyzeResponse × Int) (c : CacheState) :
    dictLookup k (dictSet k v c) = some v := by
  induction c with
  | nil => simp [dictSet, dictLookup, List.find?]
  | cons e rest ih =>
    by_cases h : e.1 = k
    · simp [dictSet, h, dictLookup, List.find?]
    · have hbeq : (e.1 == k) = false := beq_eq_false_iff_ne.mpr h
      rw [show dictSet k v (e :: rest) = e :: dictSet k v rest from by
        rw [dictSet, if_neg h]]
      unfold dictLookup
      rw [List.find?_cons, hbeq]
      exact ih

theorem mem_keys_dictSet {k : String} {v : AnalyzeResponse × Int} {c : CacheState}
    {x : String} (hx : x ∈ (dictSet k v c).map Prod.fst) :
    x = k ∨ x ∈ c.map Prod.fst := by
  induction c with
  | nil =>
    rcases List.mem_cons.mp hx with h1 | h2
    · exact Or.inl h1
    · cases h2
  | cons e rest ih =>
    by_cases h : e.1 = k
    · rw [show dictSet k v (e :: rest) = (k, v) :: rest from by rw [dictSet, if_pos h]] at hx
      rcases List.mem_cons.mp hx with h1 | h2
      · exact Or.inl h1
      · exact Or.inr (List.mem_cons.mpr (Or.inr h2))
    · rw [show dictSet k v (e :: rest) = e :: dictSet k v rest from by
          rw [dictSet, if_neg h]] at hx
      rcases List.mem_cons.mp hx with h1 | h2
      · exact Or.inr (List.mem_cons.mpr (Or.inl h1))
      · rcases ih h2 with h3 | h4
        · exact Or.inl h3
        · exact Or.inr (List.mem_cons.mpr (Or.inr h4))

theorem nodup_keys_dictSet (k : String) (v : AnalyzeResponse × Int) (c : CacheState)
    (h : (c.map Prod.fst).Nodup) : ((dictSet k v c).map Prod.fst).Nodup := by
  induction c with
  | nil => simp [dictSet]
  | cons e rest ih =>
    rw [List.map_cons, List.nodup_cons] at h
    by_cases he : e.1 = k
    · rw [show dictSet k v (e :: rest) = (k, v) :: rest from by rw [dictSet, if_pos he]]
      rw [List.map_cons, List.nodup_cons]
      exact ⟨by rw [← he]; exact h.1, h.2⟩
    · rw [show dictSet k v (e :: rest) = e :: dictSet k v rest from by
          rw [dictSet, if_neg he]]
      rw [List.map_cons, List.nodup_cons]
      refine ⟨fun hmem => ?_, ih h.2⟩
      rcases mem_keys_dictSet hmem with h1 | h2
      · exact he h1
      · exact h.1 h2

theorem keys_dictDel_sublist (k : String) (c : CacheState) :
    List.Sublist ((dictDel k c).map Prod.fst) (c.map Prod.fst) := by
  induction c with
  | nil => simp [dictDel]
  | cons e rest ih =>
    by_cases h : e.1 = k
    · rw [show dictDel k (e :: rest) = rest from by
        rw [dictDel, if_pos h]]
      rw [List.map_cons]
      exact List.sublist_cons_self _ _
    · rw [show dictDel k (e :: rest) = e :: dictDel k rest from by
        rw [dictDel, if_neg h]]
      rw [List.map_cons, List.map_cons]
      exact ih.cons₂ _

theorem nodup_keys_dictDel (k : String) (c : CacheState)
    (h : (c.map Prod.fst).Nodup) : ((dictDel k c).map Prod.fst).Nodup :=
  (keys_dictDel_sublist k c).nodup h

theorem dictLookup_eq_none_of_not_mem {k : String} {c : CacheState}
    (hk : k ∉ c.map Prod.fst) : dictLookup k c = none := by
  induction c with
  | nil => rfl
  | cons e rest ih =>
    rw [List.map_cons, List.mem_cons, not_or] at hk
    have hbeq : (e.1 == k) = false := beq_eq_false_iff_ne.mpr (fun hx => hk.1 hx.symm)
    unfold dictLookup
    rw [List.find?_cons, hbeq]
    exact ih hk.2

theorem not_mem_keys_dictDel_self (k : String) (c : CacheState)
    (h : (c.map Prod.fst).Nodup) : k ∉ (dictDel k c).map Prod.fst := by
  induction c with
  | nil => simp [dictDel]
  | cons e rest ih =>
    rw [List.map_cons, List.nodup_cons] at h
    by_cases he : e.1 = k
    · rw [show dictDel k (e :: rest) = rest from by rw [dictDel, if_pos he]]
      rw [← he]
      exact h.1
    · rw [show dictDel k (e :: rest) = e :: dictDel k rest from by
        rw [dictDel, if_neg he]]
      rw [List.map_cons, List.mem_cons, not_or]
      exact ⟨fun hx => he hx.symm, ih h.2⟩

theorem nodup_keys_set_cache (maxSize : Nat) (now : Int) (k : String)
    (v : AnalyzeResponse) (c : CacheState) (h : (c.map Prod.fst).Nodup) :
    ((set_cache maxSize now k v c).map Prod.fst).Nodup := by
  unfold set_cache
  split
  · split
    · exact nodup_keys_dictSet _ _ _ (nodup_keys_dictDel _ _ h)
    · exact nodup_keys_dictSet _ _ _ h
  · exact nodup_keys_dictSet _ _ _ h

/-! ## Cache TTL behaviour (claim C3) -/

/-- C3: a get for key k performed after a put of (k, v) returns v while
the entry age is strictly under the TTL; once the TTL has elapsed the same
read returns absent and deletes the entry as part of the read. -/
theorem cache_get_after_put (maxSize : Nat) (ttl now1 now2 : Int) (k : String)
    (v : AnalyzeResponse) (c : CacheState) (hnd : (c.map Prod.fst).Nodup) :
    (now2 - now1 < ttl →
      get_from_cache now2 ttl k (set_cache maxSize now1 k v c)
        = (some v, set_cache maxSize now1 k v c))
    ∧ (ttl ≤ now2 - now1 →
      (get_from_cache now2 ttl k (set_cache maxSize now1 k v c)).1 = none
      ∧ dictLookup k ((get_from_cache now2 ttl k (set_cache maxSize now1 k v c)).2) = none) := by
  have hl : dictLookup k (set_cache maxSize now1 k v c) = some (v, now1) := by
    unfold set_cache
    exact dictLookup_dictSet_self _ _ _
  have hg : get_from_cache now2 ttl k (set_cache maxSize now1 k v c)
      = if now2 - now1 < ttl then (some v, set_cache maxSize now1 k v c)
        else (none, dictDel k (set_cache maxSize now1 k v c)) := by
    unfold get_from_cache
    rw [hl]
  constructor
  · intro h
    rw [hg, if_pos h]
  · intro h
    have hnd1 := nodup_keys_set_cache maxSize now1 k v c hnd
    have hnotlt : ¬ now2 - now1 < ttl := not_lt.mpr h
    rw [hg, if_neg hnotlt]
    exact ⟨rfl, dictLookup_eq_none_of_not_mem (not_mem_keys_dictDel_self k _ hnd1)⟩

theorem cache_get_after_put_witness :
    get_from_cache 5 10 "k" (set_cache 1000 0 "k" sampleResponse [])
        = (some sampleResponse, set_cache 1000 0 "k" sampleResponse [])
    ∧ ((get_from_cache 10 10 "k" (set_cache 1000 0 "k" sampleResponse [])).1 = none
       ∧ dictLookup "k" ((get_from_cache 10 10 "k" (set_cache 1000 0 "k" sampleResponse [])).2)
          = none) :=
  ⟨(cache_get_after_put 1000 10 0 5 "k" sampleResponse [] (by decide)).1 (by decide),
   (cache_get_after_put 1000 10 0 10 "k" sampleResponse [] (by decide)).2 (by decide)⟩

/-! ## Eviction order (claim C4) -/

theorem foldl_oldestStep_keep (l : List (String × AnalyzeResponse × Int))
    (best : String × AnalyzeResponse × Int)
    (h : ∀ x ∈ l, ¬ x.2.2 < best.2.2) :
    l.foldl oldestStep best = best := by
  induction l generalizing best with
  | nil => rfl
  | cons x rest ih =>
    rw [List.foldl_cons]
    have hx : ¬ x.2.2 < best.2.2 := h x (List.mem_cons_self x rest)
    rw [show oldestStep best x = best from by rw [oldestStep, if_neg hx]]
    exact ih best (fun y hy => h y (List.mem_cons_of_mem x hy))

theorem foldl_oldestStep_min (l : List (String × AnalyzeResponse × Int))
    (best e : String × AnalyzeResponse × Int)
    (hmem : e = best ∨ e ∈ l)
    (hmin : ∀ x ∈ l, x ≠ e → e.2.2 < x.2.2)
    (hbest : best ≠ e → e.2.2 < best.2.2) :
    l.foldl oldestStep best = e := by
  induction l generalizing best with
  | nil =>
    rcases hmem with h1 | h2
    · exact h1.symm
    · cases h2
  | cons x rest ih =>
    rw [List.foldl_cons]
    by_cases hbe : best = e
    · subst hbe
      have hcond : ¬ x.2.2 < best.2.2 := by
        by_cases hxe : x = best
        · rw [hxe]; exact lt_irrefl _
        · exact not_lt.mpr (le_of_lt (hmin x (List.mem_cons_self _ _) hxe))
      rw [show oldestStep best x = best from by rw [oldestStep, if_neg hcond]]
      exact ih best (Or.inl rfl)
        (fun y hy hne => hmin y (List.mem_cons_of_mem _ hy) hne)
        (fun hne => absurd rfl hne)
    · have hlt : e.2.2 < best.2.2 := hbest hbe
      by_cases hxe : x = e
      · subst hxe
        rw [show oldestStep best x = x from by rw [oldestStep, if_pos hlt]]
        exact ih x (Or.inl rfl)
          (fun y hy hne => hmin y (List.mem_cons_of_mem _ hy) hne)
          (fun hne => absurd rfl hne)
      · have hxlt : e.2.2 < x.2.2 := hmin x (List.mem_cons_self _ _) hxe
        have hmem2 : e ∈ rest := by
          rcases hmem with h1 | h2
          · exact absurd h1.symm hbe
          · rcases List.mem_cons.mp h2 with h3 | h4
            · exact absurd h3.symm hxe
            · exact h4
        by_cases hxb : x.2.2 < best.2.2
        · rw [show oldestStep best x = x from by rw [oldestStep, if_pos hxb]]
          exact ih x (Or.inr hmem2)
            (fun y hy hne => hmin y (List.mem_cons_of_mem _ hy) hne)
            (fun _ => hxlt)
        · rw [show oldestStep best x = best from by rw [oldestStep, if_neg hxb]]
          exact ih best (Or.inr hmem2)
            (fun y hy hne => hmin y (List.mem_cons_of_mem _ hy) hne)
            (fun _ => hlt)

theorem oldestEntry_eq_of_strict_min (c : CacheState) (e : String × AnalyzeResponse × Int)
    (hmem : e ∈ c) (hmin : ∀ x ∈ c, x ≠ e → e.2.2 < x.2.2) :
    oldestEntry c = some e := by
  cases c with
  | nil => cases hmem
  | cons h0 rest =>
    show some (List.foldl oldestStep h0 rest) = some e
    refine congrArg some (foldl_oldestStep_min rest h0 e ?_ ?_ ?_)
    · rcases List.mem_cons.mp hmem with h1 | h2
      · exact Or.inl h1
      · exact Or.inr h2
    · exact fun x hx => hmin x (List.mem_cons_of_mem _ hx)
    · exact fun hne => hmin h0 (List.mem_cons_self _ _) hne

theorem set_cache_evicts_strict_min (maxSize : Nat) (now : Int) (k : String)
    (v : AnalyzeResponse) (c : CacheState) (e : String × AnalyzeResponse × Int)
    (hlen : maxSize ≤ c.length) (hmem : e ∈ c)
    (hmin : ∀ x ∈ c, x ≠ e → e.2.2 < x.2.2) :
    set_cache maxSize now k v c = dictSet k (v, now) (dictDel e.1 c) := by
  unfold set_cache
  rw [if_pos hlen, oldestEntry_eq_of_strict_min c e hmem hmin]

theorem dictSet_fresh (k : String) (v : AnalyzeResponse × Int) (c : CacheState)
    (h : k ∉ c.map Prod.fst) : dictSet k v c = c ++ [(k, v)] := by
  induction c with
  | nil => rfl
  | cons e rest ih =>
    rw [List.map_cons, List.mem_cons, not_or] at h
    rw [show dictSet k v (e :: rest) = e :: dictSet k v rest from by
      rw [dictSet, if_neg (fun hx => h.1 hx.symm)]]
    rw [ih h.2, List.cons_append]

theorem insertSeq_append (m : Nat) (v : AnalyzeResponse) :
    ∀ (xs ys : List String) (t : Int) (c : CacheState),
      insertSeq m v (xs ++ ys) t c
        = insertSeq m v ys (t + xs.length) (insertSeq m v xs t c) := by
  intro xs
  induction xs with
  | nil => intro ys t c; simp [insertSeq]
  | cons x xs ih =>
    intro ys t c
    rw [List.cons_append]
    rw [show insertSeq m v (x :: (xs ++ ys)) t c
        = insertSeq m v (xs ++ ys) (t + 1) (set_cache m t x v c) from rfl]
    rw [ih ys (t + 1) (set_cache m t x v c)]
    have harith : t + 1 + (xs.length : Int) = t + ((x :: xs).length : Int) := by
      push_cast [List.length_cons]; ring
    rw [harith]
    rfl

theorem stampFrom_keys (v : AnalyzeResponse) :
    ∀ (ks : List String) (t : Int), (stampFrom v ks t).map Prod.fst = ks := by
  intro ks
  induction ks with
  | nil => intro t; rfl
  | cons k ks ih => intro t; simp [stampFrom, ih]

theorem stampFrom_length (v : AnalyzeResponse) :
    ∀ (ks : List String) (t : Int), (stampFrom v ks t).length = ks.length := by
  intro ks
  induction ks with
  | nil => intro t; rfl
  | cons k ks ih => intro t; simp [stampFrom, ih]

theorem stampFrom_ts_le (v : AnalyzeResponse) :
    ∀ (ks : List String) (t : Int) (x : String × AnalyzeResponse × Int),
      x ∈ stampFrom v ks t → t ≤ x.2.2 := by
  intro ks
  induction ks with
  | nil => intro t x hx; cases hx
  | cons k ks ih =>
    intro t x hx
    rw [show stampFrom v (k :: ks) t = (k, v, t) :: stampFrom v ks (t + 1) from rfl] at hx
    rcases List.mem_cons.mp hx with h1 | h2
    · subst h1; exact le_refl t
    · have := ih (t + 1) x h2
      omega

theorem stampFrom_append (v : AnalyzeResponse) :
    ∀ (xs ys : List String) (t : Int),
      stampFrom v (xs ++ ys) t = stampFrom v xs t ++ stampFrom v ys (t + xs.length) := by
  intro xs
  induction xs with
  | nil => intro ys t; simp [stampFrom]
  | cons x xs ih =>
    intro ys t
    rw [List.cons_append]
    rw [show stampFrom v (x :: (xs ++ ys)) t = (x, v, t) :: stampFrom v (xs ++ ys) (t + 1) from rfl]
    rw [ih ys (t + 1)]
    rw [show stampFrom v (x :: xs) t = (x, v, t) :: stampFrom v xs (t + 1) from rfl]
    rw [List.cons_append]
    have harith : t + 1 + (xs.length : Int) = t + ((x :: xs).length : Int) := by
      push_cast [List.length_cons]; ring
    rw [harith]

theorem oldestEntry_stampFrom (v : AnalyzeResponse) (k : String) (ks : List String) (t : Int) :
    oldestEntry (stampFrom v (k :: ks) t) = some (k, v, t) := by
  show some (List.foldl oldestStep (k, v, t) (stampFrom v ks (t + 1))) = some (k, v, t)
  refine congrArg some (foldl_oldestStep_keep _ _ ?_)
  intro x hx
  have hts := stampFrom_ts_le v ks (t + 1) x hx
  show ¬ x.2.2 < t
  omega

theorem insertSeq_fill (m : Nat) (v : AnalyzeResponse) :
    ∀ (ks : List String) (t : Int) (c : CacheState),
      c.length + ks.length ≤ m →
      (∀ a ∈ ks, a ∉ c.map Prod.fst) →
      ks.Nodup →
      insertSeq m v ks t c = c ++ stampFrom v ks t := by
  intro ks
  induction ks with
  | nil => intro t c _ _ _; simp [insertSeq, stampFrom]
  | cons a ks ih =>
    intro t c hlen hfresh hnd
    rw [List.length_cons] at hlen
    have hlt : ¬ m ≤ c.length := by omega
    have hset : set_cache m t a v c = c ++ [(a, (v, t))] := by
      unfold set_cache
      rw [if_neg hlt]
      exact dictSet_fresh a (v, t) c (hfresh a (List.mem_cons_self a ks))
    rw [show insertSeq m v (a :: ks) t c = insertSeq m v ks (t + 1) (set_cache m t a v c)
      from rfl]
    rw [hset]
    have hlen2 : (c ++ [(a, (v, t))]).length + ks.length ≤ m := by
      rw [List.length_append, List.length_singleton]
      omega
    have hfresh2 : ∀ b ∈ ks, b ∉ (c ++ [(a, (v, t))]).map Prod.fst := by
      intro b hb
      rw [List.map_append, List.mem_append, not_or]
      refine ⟨hfresh b (List.mem_cons_of_mem a hb), ?_⟩
      have hba : b ≠ a := by
        intro hcontr
        exact (List.nodup_cons.mp hnd).1 (hcontr ▸ hb)
      simpa using hba
    rw [ih (t + 1) (c ++ [(a, (v, t))]) hlen2 hfresh2 (List.nodup_cons.mp hnd).2]
    rw [show stampFrom v (a :: ks) t = (a, v, t) :: stampFrom v ks (t + 1) from rfl]
    rw [List.append_assoc]
    rfl

theorem insertSeq_full_eviction (k0 klast : String) (ks : List String)
    (v : AnalyzeResponse) (t0 : Int)
    (hnd : (k0 :: (ks ++ [klast])).Nodup) :
    insertSeq (ks.length + 1) v (k0 :: (ks ++ [klast])) t0 []
        = stampFrom v (ks ++ [klast]) (t0 + 1)
    ∧ (insertSeq (ks.length + 1) v (k0 :: (ks ++ [klast])) t0 []).length = ks.length + 1
    ∧ dictLookup k0 (insertSeq (ks.length + 1) v (k0 :: (ks ++ [klast])) t0 []) = none := by
  have hnd0 : (k0 :: ks).Nodup :=
    ((List.sublist_append_left ks [klast]).cons₂ k0).nodup hnd
  have hknotin : klast ∉ ks := by
    have h1 : (ks ++ [klast]).Nodup := (List.nodup_cons.mp hnd).2
    intro hcontr
    rcases List.nodup_append.mp h1 with ⟨_, _, hdisj⟩
    exact hdisj hcontr (List.mem_singleton_self klast)
  have hmain : insertSeq (ks.length + 1) v (k0 :: (ks ++ [klast])) t0 []
      = stampFrom v (ks ++ [klast]) (t0 + 1) := by
    rw [show k0 :: (ks ++ [klast]) = (k0 :: ks) ++ [klast] from rfl]
    rw [insertSeq_append]
    have hfill : insertSeq (ks.length + 1) v (k0 :: ks) t0 [] = stampFrom v (k0 :: ks) t0 :=
      insertSeq_fill _ v (k0 :: ks) t0 [] (by simp) (by simp) hnd0
    rw [hfill]
    rw [show insertSeq (ks.length + 1) v [klast] (t0 + ((k0 :: ks).length : Int))
          (stampFrom v (k0 :: ks) t0)
        = set_cache (ks.length + 1) (t0 + ((k0 :: ks).length : Int)) klast v
          (stampFrom v (k0 :: ks) t0) from rfl]
    have hlenfull : ks.length + 1 ≤ (stampFrom v (k0 :: ks) t0).length := by
      rw [stampFrom_length]
      simp
    unfold set_cache
    rw [if_pos hlenfull, oldestEntry_stampFrom]
    show dictSet klast (v, t0 + ((k0 :: ks).length : Int))
        (dictDel k0 ((k0, v, t0) :: stampFrom v ks (t0 + 1)))
      = stampFrom v (ks ++ [klast]) (t0 + 1)
    rw [show dictDel k0 ((k0, v, t0) :: stampFrom v ks (t0 + 1))
        = stampFrom v ks (t0 + 1) from by rw [dictDel, if_pos rfl]]
    have hkfresh : klast ∉ (stampFrom v ks (t0 + 1)).map Prod.fst := by
      rw [stampFrom_keys]
      exact hknotin
    rw [dictSet_fresh _ _ _ hkfresh]
    rw [stampFrom_append]
    have harith : t0 + ((k0 :: ks).length : Int) = t0 + 1 + (ks.length : Int) := by
      push_cast [List.length_cons]; ring
    rw [harith]
    rfl
  refine ⟨hmain, ?_, ?_⟩
  · rw [hmain, stampFrom_length]
    simp
  · rw [hmain]
    apply dictLookup_eq_none_of_not_mem
    rw [stampFrom_keys]
    exact (List.nodup_cons.mp hnd).1

/-- C4: when the store has reached capacity, put evicts exactly the entry
with the strictly smallest insertion timestamp and then inserts the new
binding at the current time (overwriting any binding for the same key,
since dictSet replaces in place); consequently, starting from an empty
store, inserting capacity-plus-one distinct keys at increasing times
leaves exactly capacity entries, the first-inserted key being the one
evicted. -/
theorem cache_eviction_policy :
    (∀ (maxSize : Nat) (now : Int) (k : String) (v : AnalyzeResponse)
        (c : CacheState) (e : String × AnalyzeResponse × Int),
        maxSize ≤ c.length → e ∈ c → (∀ x ∈ c, x ≠ e → e.2.2 < x.2.2) →
        set_cache maxSize now k v c = dictSet k (v, now) (dictDel e.1 c))
    ∧ (∀ (k0 klast : String) (ks : List String) (v : AnalyzeResponse) (t0 : Int),
        (k0 :: (ks ++ [klast])).Nodup →
        insertSeq (ks.length + 1) v (k0 :: (ks ++ [klast])) t0 []
            = stampFrom v (ks ++ [klast]) (t0 + 1)
        ∧ (insertSeq (ks.length + 1) v (k0 :: (ks ++ [klast])) t0 []).length = ks.length + 1
        ∧ dictLookup k0 (insertSeq (ks.length + 1) v (k0 :: (ks ++ [klast])) t0 []) = none) :=
  ⟨set_cache_evicts_strict_min, insertSeq_full_eviction⟩

theorem cache_eviction_policy_witness :
    insertSeq 2 sampleResponse ["a", "b", "c"] 0 []
        = stampFrom sampleResponse ["b", "c"] 1
    ∧ (insertSeq 2 sampleResponse ["a", "b", "c"] 0 []).length = 2
    ∧ dictLookup "a" (insertSeq 2 sampleResponse ["a", "b", "c"] 0 []) = none :=
  cache_eviction_policy.2 "a" "c" ["b"] sampleResponse 0 (by decide)

/-! ## Cache entry mutation on hit (claim C9) -/

theorem dictMutateVal_stableParts (k rid : String) (l : CacheState) :
    (dictMutateVal k (cacheHitMutate rid) l).map entryStableParts
      = l.map entryStableParts := by
  induction l with
  | nil => rfl
  | cons e rest ih =>
    rcases e with ⟨k1, v, ts⟩
    by_cases h : k1 = k
    · rw [show dictMutateVal k (cacheHitMutate rid) ((k1, v, ts) :: rest)
          = (k1, cacheHitMutate rid v, ts) :: rest from by
        rw [dictMutateVal, if_pos h]]
      rfl
    · rw [show dictMutateVal k (cacheHitMutate rid) ((k1, v, ts) :: rest)
          = (k1, v, ts) :: dictMutateVal k (cacheHitMutate rid) rest from by
        rw [dictMutateVal, if_neg h]]
      rw [List.map_cons, List.map_cons, ih]

/-- C9 (amended): an entry leaves the store only through expiry-on-read or
capacity eviction, but a cache hit does mutate the stored record in place:
it rewrites the two metadata fields request id and cached, while the key,
the insertion timestamp, the solution payload, the success flag, the
warnings, and every other metadata field are unchanged. -/
theorem cache_hit_preserves_solution_data (now ttl : Int) (rid key : String)
    (c : CacheState) (r : AnalyzeResponse) :
    ((analyzeCacheHit now ttl rid key c).2).map entryStableParts
        = ((get_from_cache now ttl key c).2).map entryStableParts
    ∧ (cacheHitMutate rid r).data = r.data
    ∧ (cacheHitMutate rid r).success = r.success
    ∧ (cacheHitMutate rid r).warnings = r.warnings
    ∧ (cacheHitMutate rid r).metadata.mode = r.metadata.mode
    ∧ (cacheHitMutate rid r).metadata.primary_model = r.metadata.primary_model
    ∧ (cacheHitMutate rid r).metadata.verification_model = r.metadata.verification_model
    ∧ (cacheHitMutate rid r).metadata.verification_status = r.metadata.verification_status
    ∧ (cacheHitMutate rid r).metadata.generated_at = r.metadata.generated_at
    ∧ (cacheHitMutate rid r).metadata.latency_ms = r.metadata.latency_ms
    ∧ (cacheHitMutate rid r).metadata.cost_estimate_usd = r.metadata.cost_estimate_usd
    ∧ (cacheHitMutate rid r).metadata.request_id = rid
    ∧ (cacheHitMutate rid r).metadata.cached = true := by
  refine ⟨?_, rfl, rfl, rfl, rfl, rfl, rfl, rfl, rfl, rfl, rfl, rfl, rfl⟩
  unfold analyzeCacheHit
  rcases hg : get_from_cache now ttl key c with ⟨o, c1⟩
  cases o with
  | none => rfl
  | some r0 => exact dictMutateVal_stableParts key rid c1

/-- C9 counterexample: after one cache hit the stored value has been
mutated in place — its request id and cached flag differ from the value
that was stored — so a later hit does not observe the stored value. -/
theorem cache_entry_mutation_counterexample :
    ((analyzeCacheHit 1 10 "r1" "k" (set_cache 1000 0 "k" sampleResponse [])).2).map
        (fun e => (e.1, e.2.1.metadata.request_id, e.2.1.metadata.cached, e.2.2))
      = [("k", "r1", true, 0)]
    ∧ sampleResponse.metadata.request_id = "r0"
    ∧ sampleResponse.metadata.cached = false :=
  ⟨rfl, rfl, rfl⟩

/-! ## The minimal record and the strategy ladder (claims C1, C2) -/

theorem parseLineJ_minimal (i : Nat) (l : List Char) :
    parseLineJ [("line_number", Json.num (i : ℚ)), ("code", Json.str (String.mk l)),
      ("explanation", Json.str ""), ("is_key_line", Json.bool false)]
      = some ⟨(i : Int), String.mk l, "", none, false⟩ := rfl

theorem parseLines_minimal : ∀ (ls : List (List Char)) (i : Nat),
    parseLines (minimalLineObjs i ls) = some (minimalRecLines i ls) := by
  intro ls
  induction ls with
  | nil => intro i; rfl
  | cons l rest ih =>
    intro i
    by_cases h : pyStripList l = []
    · rw [show minimalLineObjs i (l :: rest) = minimalLineObjs (i + 1) rest from by
        rw [minimalLineObjs, if_pos h]]
      rw [show minimalRecLines i (l :: rest) = minimalRecLines (i + 1) rest from by
        rw [minimalRecLines, if_pos h]]
      exact ih (i + 1)
    · rw [show minimalLineObjs i (l :: rest)
          = Json.obj [("line_number", Json.num (i : ℚ)), ("code", Json.str (String.mk l)),
              ("explanation", Json.str ""), ("is_key_line", Json.bool false)]
            :: minimalLineObjs (i + 1) rest from by
        rw [minimalLineObjs, if_neg h]]
      rw [show minimalRecLines i (l :: rest)
          = (⟨(i : Int), String.mk l, "", none, false⟩ : LineExplanation)
            :: minimalRecLines (i + 1) rest from by
        rw [minimalRecLines, if_neg h]]
      show (parseLines (minimalLineObjs (i + 1) rest)).bind
          (fun r => some ((⟨(i : Int), String.mk l, "", none, false⟩ : LineExplanation) :: r))
        = some ((⟨(i : Int), String.mk l, "", none, false⟩ : LineExplanation)
            :: minimalRecLines (i + 1) rest)
      rw [ih (i + 1)]
      rfl

theorem parse_build_minimal (code : String) :
    parseSolutionFromJson (build_minimal_response code) = some (minimalSolution code) := by
  show (parseLines (minimalLineObjs 1 (splitNl code.data))).bind
      (fun lines => some (⟨code, "python", lines,
        ⟨⟨"O(?)", "Analysis pending"⟩, ⟨"O(?)", "Analysis pending"⟩⟩,
        [], [], [], []⟩ : SolutionData))
    = some (minimalSolution code)
  rw [parseLines_minimal (splitNl code.data) 1]
  rfl

theorem minimalRecLines_enumFrom : ∀ (ls : List (List Char)) (i : Nat),
    minimalRecLines i ls
      = ((ls.enumFrom i).filter (fun p => !(pyStripList p.2).isEmpty)).map
          (fun p => ⟨(p.1 : Int), String.mk p.2, "", none, false⟩) := by
  intro ls
  induction ls with
  | nil => intro i; rfl
  | cons l rest ih =>
    intro i
    rw [show (l :: rest).enumFrom i = (i, l) :: rest.enumFrom (i + 1) from rfl]
    rw [List.filter_cons]
    by_cases h : pyStripList l = []
    · have hb : (!(pyStripList l).isEmpty) = false := by rw [h]; rfl
      rw [show minimalRecLines i (l :: rest) = minimalRecLines (i + 1) rest from by
        rw [minimalRecLines, if_pos h]]
      simp only [hb, Bool.false_eq_true, if_false]
      exact ih (i + 1)
    · have hb : (!(pyStripList l).isEmpty) = true := by
        cases hpl : pyStripList l with
        | nil => exact absurd hpl h
        | cons c cs => rfl
      rw [show minimalRecLines i (l :: rest)
          = (⟨(i : Int), String.mk l, "", none, false⟩ : LineExplanation)
            :: minimalRecLines (i + 1) rest from by
        rw [minimalRecLines, if_neg h]]
      simp only [hb, if_true]
      rw [List.map_cons, ih (i + 1)]

/-- C2 (amended): the minimal record built around a salvaged code string
carries, as its line-by-line breakdown, exactly the non-blank lines of the
split, each numbered by its 1-based position among all split lines (blank
lines are skipped but still consume position numbers), each with an empty
explanation and key-line flag false. -/
theorem minimal_lines_position_numbered (code : String) :
    (parseSolutionFromJson (build_minimal_response code)).map SolutionData.lines
        = some (amendedLinesSpec code) := by
  rw [parse_build_minimal]
  refine congrArg some ?_
  show minimalRecLines 1 (splitNl code.data) = amendedLinesSpec code
  unfold amendedLinesSpec
  exact minimalRecLines_enumFrom (splitNl code.data) 1

/-- C2 counterexample: a code body salvaged by strategy 4 whose middle line
is blank yields entry numbers 1 and 3, not the consecutive numbering 1 and
2 that the claim words would give. -/
theorem minimal_lines_sequential_counterexample :
    (parse_solution_response "\"code\": \"a\n\nb\"").map
        (fun sd => sd.lines.map (fun le => le.line_number)) = some [1, 3]
    ∧ (claimLinesSpec "a\n\nb").map (fun le => le.line_number) = [1, 2] :=
  ⟨rfl, rfl⟩

theorem collectCode_head : ∀ (lines : List (List Char)) (l : List Char)
    (ls : List (List Char)), collectCode lines false = l :: ls →
    ("def ".data).isPrefixOf (pyStripList l) = true
    ∨ ("class ".data).isPrefixOf (pyStripList l) = true := by
  intro lines
  induction lines with
  | nil =>
    intro l ls h
    exact absurd h.symm (List.cons_ne_nil l ls)
  | cons x rest ih =>
    intro l ls h
    rw [collectCode] at h
    split at h
    · rename_i hcond
      injection h with hxl _
      subst hxl
      simp only [Bool.or_eq_true, Bool.or_false] at hcond
      exact hcond
    · exact ih l ls h

theorem strip_prefix_ne_nil (l : List Char)
    (h : ("def ".data).isPrefixOf (pyStripList l) = true
      ∨ ("class ".data).isPrefixOf (pyStripList l) = true) :
    l ≠ [] := by
  intro hl
  subst hl
  rcases h with h | h <;> exact Bool.noConfusion h

theorem joinNl_cons_ne_nil (l : List Char) (ls : List (List Char)) (h : l ≠ []) :
    joinNl (l :: ls) ≠ [] := by
  have hform : ∃ t, joinNl (l :: ls) = l ++ t := by
    cases ls with
    | nil => exact ⟨[], rfl⟩
    | cons l2 ls2 => exact ⟨_, rfl⟩
  rcases hform with ⟨t, ht⟩
  rw [ht]
  intro hcontr
  exact h (List.append_eq_nil.mp hcontr).1

/-- C1 (amended): whenever the record is produced by strategy 5 (all four
earlier extraction strategies failed and normalization still succeeded),
its code field is non-empty; produced by strategies 1 to 4 it may be empty,
since the code field defaults to the empty string. -/
theorem strategy5_code_nonempty (content : String) (sd : SolutionData)
    (h1 : strategy1 content = none) (h2 : strategy2 content = none)
    (h3 : strategy3 content = none) (h4 : strategy4 content = none)
    (h5 : parse_solution_response content = some sd) :
    sd.code ≠ "" := by
  have hex : extract_json content = strategy5 content := by
    unfold extract_json
    rw [h1, h2, h3, h4]
  unfold parse_solution_response at h5
  rw [hex] at h5
  unfold strategy5 at h5
  split at h5
  · rcases hcol : collectCode (splitNl content.data) false with _ | ⟨l, ls⟩
    · rw [hcol] at h5
      simp at h5
    · rw [hcol] at h5
      rw [show (some (build_minimal_response (String.mk (joinNl (l :: ls))))).bind
            parseSolutionFromJson
          = parseSolutionFromJson (build_minimal_response (String.mk (joinNl (l :: ls))))
          from rfl] at h5
      rw [parse_build_minimal] at h5
      injection h5 with h5
      subst h5
      have hpre := collectCode_head _ l ls hcol
      have hlne := strip_prefix_ne_nil l hpre
      have hjoin := joinNl_cons_ne_nil l ls hlne
      intro hcontr
      exact hjoin (congrArg String.data hcontr)
  · simp at h5

theorem strategy5_code_nonempty_witness :
    (minimalSolution "def solve(): return 1").code ≠ "" :=
  strategy5_code_nonempty "def solve(): return 1"
    (minimalSolution "def solve(): return 1") rfl rfl rfl rfl rfl

/-- C1 counterexample: normalization succeeds on an empty JSON object and
the resulting record has an empty code field. -/
theorem normalize_empty_code_counterexample :
    (parse_solution_response "\x7b\x7d").map SolutionData.code = some "" := rfl

end Capra
